import Mathlib

/-!
Verification of the scoring and aggregation engine of the Friends-Bets NFL
betting tracker (`src/nfl_betting_tracker.py`).

Numeric model: Python floats are idealised as rationals (`ℚ`); integers are
`ℤ`.  A Python function that can raise an exception is modelled as returning
`Option` (`none` = the call raises).
-/

namespace FriendsBets

attribute [local semireducible] Rat.mul Rat.add Rat.inv Rat.sub

/-- Model of `american_profit` (src/nfl_betting_tracker.py, lines 20-34).
The Python code is
`if odds > 0: return stake * (odds / 100)` and otherwise
`return stake * (100 / abs(odds))`; when `odds = 0` the second branch divides
by `abs(0) = 0` and raises `ZeroDivisionError`, modelled by `none`. -/
def american_profit (odds : ℤ) (stake : ℚ) : Option ℚ :=
  if 0 < odds then
    some (stake * ((odds : ℚ) / 100))
  else if odds.natAbs = 0 then
    none
  else
    some (stake * (100 / (odds.natAbs : ℚ)))

/-- Model of `bet_points` (src/nfl_betting_tracker.py, lines 37-61): string
comparisons against `'pending'`, `'push'`, `'win'`, `'loss'` in that order,
with a final `else: return 0.0`.  The only way the Python function raises is
through `american_profit` in the `'win'` branch. -/
def bet_points (odds : ℤ) (result : String) (is_triple : Bool) (stake : ℚ) :
    Option ℚ :=
  if result = "pending" then some 0
  else if result = "push" then some 0
  else if result = "win" then
    (american_profit odds stake).map fun profit =>
      if is_triple then profit * 3 else profit
  else if result = "loss" then
    some (if is_triple then -100 else -stake)
  else
    some 0

/-- Total value of `american_profit` on its non-raising domain (`odds ≠ 0`);
used to state aggregate sums.  Agrees with `american_profit` there, see
`american_profit_eq_val`. -/
def american_profit_val (odds : ℤ) (stake : ℚ) : ℚ :=
  if 0 < odds then stake * ((odds : ℚ) / 100)
  else stake * (100 / (odds.natAbs : ℚ))

/-- Total value of `bet_points` on its non-raising domain (`odds ≠ 0`). -/
def bet_points_val (odds : ℤ) (result : String) (is_triple : Bool) (stake : ℚ) :
    ℚ :=
  if result = "pending" then 0
  else if result = "push" then 0
  else if result = "win" then
    (fun profit => if is_triple then profit * 3 else profit)
      (american_profit_val odds stake)
  else if result = "loss" then
    (if is_triple then -100 else -stake)
  else 0

/-! ## Data model of the wager frames

`get_bets` (src/nfl_betting_tracker.py, lines 282-326) hands the engine a
frame whose columns are the `bets` table columns joined with the player's
`name` (as `player_name`) and `color`.  The audit timestamps are never read by
the engine and are omitted.  The mutable `points` column the aggregators
assign is part of the row (`none` until an aggregator writes it), so that the
in-place column assignment `df['points'] = df.apply(...)` is observable. -/

structure Bet where
  id : ℤ
  week : ℤ
  player_id : ℤ
  player_name : String
  description : String
  american_odds : ℤ
  stake : ℚ
  is_triple : Bool
  result : String
  color : String
  points : Option ℚ
deriving DecidableEq, Repr

/-- Value of the computed `points` column of a scored row (every scored row
carries `some` value; the default `0` is never read by the aggregators). -/
def row_points (r : Bet) : ℚ := r.points.getD 0

/-- One step of `df.apply(lambda row: bet_points(...), axis=1)`:`none` when
`bet_points` raises on that row. -/
def score_row (r : Bet) : Option Bet :=
  (bet_points r.american_odds r.result r.is_triple r.stake).map
    fun p => { r with points := some p }

/-- Model of the column assignment `df['points'] = df.apply(...)` shared by all
three aggregators: every row gets its `bet_points` value written into the
`points` column; if `bet_points` raises on any row the whole call raises. -/
def assign_points : List Bet → Option (List Bet)
  | [] => some []
  | r :: rs => do
    let r' ← score_row r
    let rs' ← assign_points rs
    pure (r' :: rs')

/-- Total version of `score_row` on the non-raising domain. -/
def score_row_val (r : Bet) : Bet :=
  { r with points := some (bet_points_val r.american_odds r.result r.is_triple r.stake) }

/-- Points of one wager row on the non-raising domain, as a function of the
row. -/
def bet_points_row (r : Bet) : ℚ :=
  bet_points_val r.american_odds r.result r.is_triple r.stake

/-! ## Lexicographic key orders used by the groupby / sort steps -/

/-- Code-point order on strings, stated on the underlying character lists so
that the kernel can evaluate comparisons; propositionally it is the ordinary
lexicographic `String` order (see `str_lt_iff`), which is also how pandas
compares the Python strings in these key columns. -/
def str_lt (a b : String) : Prop := a.data < b.data

def str_le (a b : String) : Prop := a.data ≤ b.data

instance : DecidableRel str_lt := fun a b =>
  inferInstanceAs (Decidable (a.data < b.data))

instance : DecidableRel str_le := fun a b =>
  inferInstanceAs (Decidable (a.data ≤ b.data))

theorem str_lt_iff (a b : String) : str_lt a b ↔ a < b :=
  Iff.symm String.lt_iff_toList_lt

theorem str_le_iff (a b : String) : str_le a b ↔ a ≤ b :=
  Iff.symm String.le_iff_toList_le

theorem str_lt_trichotomy (x y : String) : str_lt x y ∨ x = y ∨ str_lt y x := by
  rcases lt_trichotomy x y with h | h | h
  · exact Or.inl ((str_lt_iff x y).mpr h)
  · exact Or.inr (Or.inl h)
  · exact Or.inr (Or.inr ((str_lt_iff y x).mpr h))

theorem str_lt_trans (x y z : String) : str_lt x y → str_lt y z → str_lt x z := by
  intro h1 h2
  exact (str_lt_iff x z).mpr (lt_trans ((str_lt_iff x y).mp h1) ((str_lt_iff y z).mp h2))

theorem str_lt_asymm (x y : String) : str_lt x y → str_lt y x → False := by
  intro h1 h2
  exact lt_asymm ((str_lt_iff x y).mp h1) ((str_lt_iff y x).mp h2)

theorem str_le_total (x y : String) : str_le x y ∨ str_le y x := by
  rcases le_total x y with h | h
  · exact Or.inl ((str_le_iff x y).mpr h)
  · exact Or.inr ((str_le_iff y x).mpr h)

theorem str_le_trans (x y z : String) : str_le x y → str_le y z → str_le x z := by
  intro h1 h2
  exact (str_le_iff x z).mpr (le_trans ((str_le_iff x y).mp h1) ((str_le_iff y z).mp h2))

theorem str_le_antisymm (x y : String) : str_le x y → str_le y x → x = y := by
  intro h1 h2
  exact le_antisymm ((str_le_iff x y).mp h1) ((str_le_iff y x).mp h2)

/-- Lexicographic extension: pandas sorts group keys and sort columns as
tuples, first component first. -/
def lex2 {α β : Type} (lt : α → α → Prop) (s : β → β → Prop) (a b : α × β) :
    Prop :=
  lt a.1 b.1 ∨ (a.1 = b.1 ∧ s a.2 b.2)

instance lex2.instDecidableRel {α β : Type} (lt : α → α → Prop)
    (s : β → β → Prop) [DecidableEq α] [DecidableRel lt] [DecidableRel s] :
    DecidableRel (lex2 lt s) := fun a b =>
  inferInstanceAs (Decidable (lt a.1 b.1 ∨ (a.1 = b.1 ∧ s a.2 b.2)))

theorem lex2_total {α β : Type} {lt : α → α → Prop} {s : β → β → Prop}
    (hlt : ∀ x y, lt x y ∨ x = y ∨ lt y x) (hs : ∀ x y, s x y ∨ s y x)
    (a b : α × β) : lex2 lt s a b ∨ lex2 lt s b a := by
  rcases hlt a.1 b.1 with h | h | h
  · exact Or.inl (Or.inl h)
  · rcases hs a.2 b.2 with h2 | h2
    · exact Or.inl (Or.inr ⟨h, h2⟩)
    · exact Or.inr (Or.inr ⟨h.symm, h2⟩)
  · exact Or.inr (Or.inl h)

theorem lex2_trans {α β : Type} {lt : α → α → Prop} {s : β → β → Prop}
    (hlt : ∀ x y z, lt x y → lt y z → lt x z)
    (hs : ∀ x y z, s x y → s y z → s x z) (a b c : α × β) :
    lex2 lt s a b → lex2 lt s b c → lex2 lt s a c := by
  rintro (h1 | ⟨h1, h1s⟩) (h2 | ⟨h2, h2s⟩)
  · exact Or.inl (hlt _ _ _ h1 h2)
  · exact Or.inl (h2 ▸ h1)
  · exact Or.inl (h1 ▸ h2)
  · exact Or.inr ⟨h1.trans h2, hs _ _ _ h1s h2s⟩

theorem lex2_antisymm {α β : Type} {lt : α → α → Prop} {s : β → β → Prop}
    (hlt : ∀ x y, lt x y → lt y x → False)
    (hs : ∀ x y, s x y → s y x → x = y) (a b : α × β) :
    lex2 lt s a b → lex2 lt s b a → a = b := by
  rintro (h1 | ⟨h1, h1s⟩) (h2 | ⟨h2, h2s⟩)
  · exact (hlt _ _ h1 h2).elim
  · rw [h2] at h1
    exact (hlt _ _ h1 h1).elim
  · rw [h1] at h2
    exact (hlt _ _ h2 h2).elim
  · exact Prod.ext h1 (hs _ _ h1s h2s)

/-- Key order of `groupby(['player_id', 'player_name', 'week'])`. -/
def wk_le : (ℤ × String × ℤ) → (ℤ × String × ℤ) → Prop :=
  lex2 (fun x y : ℤ => x < y) (lex2 str_lt (fun x y : ℤ => x ≤ y))

/-- Key order of `groupby(['player_id', 'player_name'])`. -/
def sk_le : (ℤ × String) → (ℤ × String) → Prop :=
  lex2 (fun x y : ℤ => x < y) str_le

/-- Key order of `groupby(['player_id', 'player_name', 'color', 'week'])`. -/
def ck_le : (ℤ × String × String × ℤ) → (ℤ × String × String × ℤ) → Prop :=
  lex2 (fun x y : ℤ => x < y) (lex2 str_lt (lex2 str_lt (fun x y : ℤ => x ≤ y)))

instance : DecidableRel wk_le := fun a b =>
  inferInstanceAs (Decidable (a.1 < b.1 ∨ (a.1 = b.1 ∧
    (str_lt a.2.1 b.2.1 ∨ (a.2.1 = b.2.1 ∧ a.2.2 ≤ b.2.2)))))

instance : DecidableRel sk_le := fun a b =>
  inferInstanceAs (Decidable (a.1 < b.1 ∨ (a.1 = b.1 ∧ str_le a.2 b.2)))

instance : DecidableRel ck_le := fun a b =>
  inferInstanceAs (Decidable (a.1 < b.1 ∨ (a.1 = b.1 ∧
    (str_lt a.2.1 b.2.1 ∨ (a.2.1 = b.2.1 ∧
      (str_lt a.2.2.1 b.2.2.1 ∨ (a.2.2.1 = b.2.2.1 ∧ a.2.2.2 ≤ b.2.2.2)))))))

/-! ## The aggregators -/

/-- Output row of `weekly_points`: the reset-index frame of
`groupby(['player_id', 'player_name', 'week'])['points'].sum()`. -/
structure WeekRow where
  player_id : ℤ
  player_name : String
  week : ℤ
  points : ℚ
deriving DecidableEq, Repr

def wk_key (r : Bet) : ℤ × String × ℤ := (r.player_id, r.player_name, r.week)

/-- Model of `weekly_points` (src/nfl_betting_tracker.py, lines 64-77).  The
result pairs the caller's frame as observed after the call (the code assigns
the `points` column in place) with the returned weekly totals table.  A pandas
groupby with the default `sort=True` lists one row per distinct key, keys in
ascending lexicographic order, each carrying the `points` sum of its group. -/
def week_row (scored : List Bet) (k : ℤ × String × ℤ) : WeekRow :=
  { player_id := k.1, player_name := k.2.1, week := k.2.2,
    points := ((scored.filter fun r => wk_key r = k).map row_points).sum }

def weekly_points (rows : List Bet) : Option (List Bet × List WeekRow) :=
  if rows = [] then some (rows, [])
  else do
    let scored ← assign_points rows
    pure (scored,
      (List.insertionSort wk_le ((scored.map wk_key).dedup)).map (week_row scored))

/-- Output row of `season_standings` after the final column selection
`[['player_name', 'total_bets', 'wins', 'losses', 'pushes', 'season_points']]`. -/
structure StandingsRow where
  player_name : String
  total_bets : ℕ
  wins : ℕ
  losses : ℕ
  pushes : ℕ
  season_points : ℚ
deriving DecidableEq, Repr

/-- Rounding of `Series.round(1)`: numpy rounds half to even (banker's
rounding), modelled exactly on `ℚ`. -/
def round_half_even (q : ℚ) : ℤ :=
  if q - ⌊q⌋ < 1 / 2 then ⌊q⌋
  else if 1 / 2 < q - ⌊q⌋ then ⌊q⌋ + 1
  else if Even ⌊q⌋ then ⌊q⌋ else ⌊q⌋ + 1

def round1 (q : ℚ) : ℚ := (round_half_even (q * 10) : ℚ) / 10

def sk_key (r : Bet) : ℤ × String := (r.player_id, r.player_name)

/-- Model of `DataFrame.sort_values(col, ascending=False)` as pandas executes
it: `nargsort` reverses the column, takes an ascending argsort of the reversed
column, and reverses the resulting indexer again.  The argsort itself (numpy
`kind='quicksort'`, an introsort) degenerates to a stable insertion sort on
arrays shorter than 17 entries — the regime of this league's standings tables —
and is modelled by a stable insertion sort here. -/
def sort_values_desc {α : Type} (key : α → ℚ) (l : List α) : List α :=
  (List.insertionSort (fun a b => key a ≤ key b) l.reverse).reverse

/-- Model of `season_standings` (src/nfl_betting_tracker.py, lines 80-109):
scores every row in place, groups by `(player_id, player_name)` taking group
size, win count and `points` sum, joins loss/push counts grouped by
`player_id` alone (`map` + `fillna(0)`), rounds the point sum to one decimal,
and sorts by the rounded total descending. -/
def standings_row (scored : List Bet) (k : ℤ × String) : StandingsRow :=
  { player_name := k.2,
    total_bets := (scored.filter fun r => sk_key r = k).length,
    wins := (scored.filter fun r => sk_key r = k ∧ r.result = "win").length,
    losses := (scored.filter fun r => r.player_id = k.1 ∧ r.result = "loss").length,
    pushes := (scored.filter fun r => r.player_id = k.1 ∧ r.result = "push").length,
    season_points :=
      round1 (((scored.filter fun r => sk_key r = k).map row_points).sum) }

def season_standings (rows : List Bet) : Option (List Bet × List StandingsRow) :=
  if rows = [] then some (rows, [])
  else do
    let scored ← assign_points rows
    pure (scored, sort_values_desc (fun srow => srow.season_points)
      ((List.insertionSort sk_le ((scored.map sk_key).dedup)).map (standings_row scored)))

/-- Intermediate `weekly_totals` frame inside `cumulative_by_week`. -/
structure WeeklyKeyRow where
  player_id : ℤ
  player_name : String
  color : String
  week : ℤ
  points : ℚ
deriving DecidableEq, Repr

def ck_key (r : Bet) : ℤ × String × String × ℤ :=
  (r.player_id, r.player_name, r.color, r.week)

/-- Order of `sort_values(['player_id', 'week'])` on the weekly totals. -/
def pw_le (a b : WeeklyKeyRow) : Prop :=
  lex2 (fun x y : ℤ => x < y) (fun x y : ℤ => x ≤ y)
    (a.player_id, a.week) (b.player_id, b.week)

instance : DecidableRel pw_le := fun a b =>
  inferInstanceAs (Decidable (a.player_id < b.player_id ∨
    (a.player_id = b.player_id ∧ a.week ≤ b.week)))

/-- Output row of `cumulative_by_week` after the final column selection. -/
structure TrajectoryPoint where
  player_name : String
  week : ℤ
  cumulative_points : ℚ
  color : String
deriving DecidableEq, Repr

/-- Model of `groupby('player_id')['points'].cumsum()`: a running per-player
sum over the rows in their listed order, each row paired with the cumulative
value of its player so far. -/
def cumsum_by_player (acc : ℤ → ℚ) : List WeeklyKeyRow → List (WeeklyKeyRow × ℚ)
  | [] => []
  | r :: rs =>
    let c := acc r.player_id + r.points
    (r, c) :: cumsum_by_player (fun p => if p = r.player_id then c else acc p) rs

/-- Model of `cumulative_by_week` (src/nfl_betting_tracker.py, lines 112-130):
scores every row in place, groups by `(player_id, player_name, color, week)`
summing `points`, sorts the groups by `(player_id, week)` (a stable multi-key
`sort_values`), and takes the per-player running sum. -/
def weekly_key_row (scored : List Bet) (k : ℤ × String × String × ℤ) : WeeklyKeyRow :=
  { player_id := k.1, player_name := k.2.1, color := k.2.2.1, week := k.2.2.2,
    points := ((scored.filter fun r => ck_key r = k).map row_points).sum }

def trajectory_point (rc : WeeklyKeyRow × ℚ) : TrajectoryPoint :=
  { player_name := rc.1.player_name, week := rc.1.week,
    cumulative_points := rc.2, color := rc.1.color }

def cumulative_by_week (rows : List Bet) : Option (List Bet × List TrajectoryPoint) :=
  if rows = [] then some (rows, [])
  else do
    let scored ← assign_points rows
    pure (scored,
      (cumsum_by_player (fun _ => 0)
        (List.insertionSort pw_le
          ((List.insertionSort ck_le ((scored.map ck_key).dedup)).map
            (weekly_key_row scored)))).map trajectory_point)

/-! ## Input-side predicates and sample rows -/

/-- A row as the engine observes it with its `points` column cleared:
comparing `clear_points` images asserts that everything except the assigned
`points` column is untouched. -/
def clear_points (r : Bet) : Bet := { r with points := none }

/-- Every wager carries non-zero American odds — the invariant the entry form
enforces (`american_odds == 0` is rejected, src/nfl_betting_tracker.py,
line 604) and the domain of the odds convention. -/
def ValidOdds (rows : List Bet) : Prop := ∀ r ∈ rows, r.american_odds ≠ 0

/-- The join invariant of `get_bets`: `player_name` and `color` come from the
`players` table keyed by `player_id` with `name` unique, so two rows agree on
`player_id` exactly when they agree on `player_name`, and rows of one player
share one color. -/
def PlayerConsistent (rows : List Bet) : Prop :=
  ∀ r ∈ rows, ∀ r' ∈ rows,
    (r.player_id = r'.player_id ↔ r.player_name = r'.player_name) ∧
      (r.player_id = r'.player_id → r.color = r'.color)

instance (rows : List Bet) : Decidable (ValidOdds rows) := by
  unfold ValidOdds
  infer_instance

instance (rows : List Bet) : Decidable (PlayerConsistent rows) := by
  unfold PlayerConsistent
  infer_instance

/-- Sample wager row: a settled win at odds −110, stake 100, worth
`100 * 100 / 110 = 1000 / 11` points. -/
def b0 : Bet :=
  { id := 1, week := 1, player_id := 1, player_name := "Logan",
    description := "Chiefs -7.5", american_odds := -110, stake := 100,
    is_triple := false, result := "win", color := "#e74c3c", points := none }

/-! ## Scoring-rule theorems (claims C1, C2, C3, C9, C10) -/

theorem american_profit_eq_val (odds : ℤ) (stake : ℚ) (h : odds ≠ 0) :
    american_profit odds stake = some (american_profit_val odds stake) := by
  unfold american_profit american_profit_val
  rcases lt_trichotomy odds 0 with hlt | heq | hgt
  · rw [if_neg (by omega), if_neg (by omega), if_neg (by omega)]
  · exact absurd heq h
  · rw [if_pos hgt, if_pos hgt]

theorem bet_points_eq_val (odds : ℤ) (result : String) (is_triple : Bool)
    (stake : ℚ) (h : odds ≠ 0) :
    bet_points odds result is_triple stake =
      some (bet_points_val odds result is_triple stake) := by
  unfold bet_points bet_points_val
  by_cases h1 : result = "pending"
  · simp [h1]
  by_cases h2 : result = "push"
  · simp [h1, h2]
  by_cases h3 : result = "win"
  · simp [h1, h2, h3, american_profit_eq_val odds stake h]
  by_cases h4 : result = "loss"
  · simp [h1, h2, h3, h4]
  · simp [h1, h2, h3, h4]

/-- C1: on a settled loss the scoring rule ignores the odds: it returns the
negated stake when the special (triple) flag is false, and a fixed `-100` when
the flag is true, for every non-zero odds and every positive stake. -/
theorem bet_points_loss_cap (o : ℤ) (s : ℚ) (ho : o ≠ 0) (hs : 0 < s) :
    bet_points o "loss" false s = some (-s) ∧
      bet_points o "loss" true s = some (-100) := by
  constructor <;> rfl

theorem bet_points_loss_cap_witness :
    (-150 : ℤ) ≠ 0 ∧ (0 : ℚ) < 250 ∧
      (bet_points (-150) "loss" false 250 = some (-250) ∧
        bet_points (-150) "loss" true 250 = some (-100)) :=
  ⟨by decide, by norm_num, bet_points_loss_cap (-150) 250 (by decide) (by norm_num)⟩

theorem bet_points_win (o : ℤ) (t : Bool) (s : ℚ) :
    bet_points o "win" t s =
      (american_profit o s).map (fun profit => if t then profit * 3 else profit) :=
  rfl

/-- C2: on a win the scoring rule returns the American-odds profit, tripled
when the special flag is set: for positive odds the profit is
`stake * odds / 100`, for negative odds it is `stake * 100 / |odds|`. -/
theorem bet_points_win_profit (o : ℤ) (s : ℚ) (ho : o ≠ 0) (hs : 0 < s) :
    (0 < o →
      bet_points o "win" false s = some (s * (o : ℚ) / 100) ∧
        bet_points o "win" true s = some (3 * (s * (o : ℚ) / 100))) ∧
    (o < 0 →
      bet_points o "win" false s = some (s * 100 / |(o : ℚ)|) ∧
        bet_points o "win" true s = some (3 * (s * 100 / |(o : ℚ)|))) := by
  have habs : ((o.natAbs : ℚ)) = |(o : ℚ)| := by
    rw [Int.cast_natAbs, Int.cast_abs]
  constructor
  · intro hpos
    have hap : american_profit o s = some (s * ((o : ℚ) / 100)) := by
      unfold american_profit
      rw [if_pos hpos]
    constructor
    · rw [bet_points_win, hap]
      simp [mul_div_assoc]
    · rw [bet_points_win, hap]
      simp only [Option.map_some', if_true, Option.some.injEq]
      ring
  · intro hneg
    have hnotpos : ¬ 0 < o := by omega
    have hne : ¬ o.natAbs = 0 := by omega
    have hap : american_profit o s = some (s * (100 / ((o.natAbs : ℚ)))) := by
      unfold american_profit
      rw [if_neg hnotpos, if_neg hne]
    constructor
    · rw [bet_points_win, hap, habs]
      simp [mul_div_assoc]
    · rw [bet_points_win, hap, habs]
      simp only [Option.map_some', if_true, Option.some.injEq]
      ring

theorem bet_points_win_profit_witness :
    (-150 : ℤ) ≠ 0 ∧ (0 : ℚ) < 100 ∧
      ((-150 : ℤ) < 0 →
        bet_points (-150) "win" false 100 = some (100 * 100 / |((-150 : ℤ) : ℚ)|) ∧
          bet_points (-150) "win" true 100 =
            some (3 * (100 * 100 / |((-150 : ℤ) : ℚ)|))) :=
  ⟨by decide, by norm_num,
    (bet_points_win_profit (-150) 100 (by decide) (by norm_num)).2⟩

/-- C3 counterexample: on the result string `"bonus"`, which is outside
`{pending, win, loss, push}`, the scoring rule does not fail: it silently
returns `0` through the final `else` branch. -/
theorem bet_points_unknown_result_returns_zero :
    ("bonus" ∉ ["pending", "win", "loss", "push"]) ∧
      bet_points 320 "bonus" false 100 = some 0 := by
  constructor
  · decide
  · rfl

/-- C3 amended: for every result value outside `{pending, win, loss, push}`
the scoring rule silently returns `0` (it does not signal an error); the only
error it can signal is a zero-odds failure inside the `win` branch. -/
theorem bet_points_unknown_result (o : ℤ) (res : String) (t : Bool) (s : ℚ)
    (h : res ∉ ["pending", "win", "loss", "push"]) :
    bet_points o res t s = some 0 := by
  simp only [List.mem_cons, List.mem_singleton, not_or] at h
  obtain ⟨h1, h2, h3, h4⟩ := h
  unfold bet_points
  rw [if_neg h1, if_neg (by simpa using h4), if_neg h2, if_neg h3]

theorem bet_points_unknown_result_witness :
    ("bonus" ∉ ["pending", "win", "loss", "push"]) ∧
      bet_points 320 "bonus" true 50 = some 0 :=
  ⟨by decide, bet_points_unknown_result 320 "bonus" true 50 (by decide)⟩

/-- C9: the odds converter fails on zero odds for every stake: the Python code
reaches `stake * (100 / abs(odds))` with `abs(0) = 0` and raises
`ZeroDivisionError` rather than returning a number. -/
theorem american_profit_zero_odds_fails (s : ℚ) :
    american_profit 0 s = none := rfl

/-- C10: on every non-zero odds the odds converter is total: the positive
branch divides by the constant `100` and the negative branch divides by
`|odds| ≥ 1`, so a value is always returned. -/
theorem american_profit_total (o : ℤ) (s : ℚ) (ho : o ≠ 0) :
    ∃ q : ℚ, american_profit o s = some q :=
  ⟨american_profit_val o s, american_profit_eq_val o s ho⟩

theorem american_profit_total_witness :
    (320 : ℤ) ≠ 0 ∧ ∃ q : ℚ, american_profit 320 100 = some q :=
  ⟨by decide, american_profit_total 320 100 (by decide)⟩

/-! ## Facts about the shared points-column assignment -/

theorem score_row_eq_val (r : Bet) (h : r.american_odds ≠ 0) :
    score_row r = some (score_row_val r) := by
  unfold score_row score_row_val
  rw [bet_points_eq_val _ _ _ _ h, Option.map_some']

theorem assign_points_eq_val (rows : List Bet)
    (h : ∀ r ∈ rows, r.american_odds ≠ 0) :
    assign_points rows = some (rows.map score_row_val) := by
  induction rows with
  | nil => rfl
  | cons r rs ih =>
    have hr : r.american_odds ≠ 0 := h r (List.mem_cons_self r rs)
    have hrs : ∀ x ∈ rs, x.american_odds ≠ 0 := fun x hx => h x (List.mem_cons_of_mem r hx)
    unfold assign_points
    rw [score_row_eq_val r hr, ih hrs]
    rfl

theorem bind_pair_inv {γ ε : Type} {x : Option γ} {g : γ → ε} {post : γ}
    {out : ε}
    (h : (do
        let s ← x
        pure (s, g s) : Option (γ × ε)) = some (post, out)) :
    x = some post ∧ g post = out := by
  cases x with
  | none => cases h
  | some s =>
    have h2 : (s, g s) = (post, out) := Option.some.inj h
    have hs : s = post := congrArg Prod.fst h2
    refine ⟨by rw [hs], ?_⟩
    rw [← hs]
    exact congrArg Prod.snd h2

theorem score_row_clear (r r' : Bet) (h : score_row r = some r') :
    clear_points r' = clear_points r := by
  unfold score_row at h
  rcases Option.map_eq_some'.mp h with ⟨p, _, hp⟩
  rw [← hp]
  rfl

theorem assign_points_clear (rows scored : List Bet)
    (h : assign_points rows = some scored) :
    scored.map clear_points = rows.map clear_points := by
  induction rows generalizing scored with
  | nil =>
    unfold assign_points at h
    cases h
    rfl
  | cons r rs ih =>
    unfold assign_points at h
    cases hr : score_row r with
    | none => rw [hr] at h; cases h
    | some r' =>
      rw [hr] at h
      cases hrs : assign_points rs with
      | none => rw [hrs] at h; cases h
      | some rs' =>
        rw [hrs] at h
        cases h
        simp only [List.map_cons]
        rw [score_row_clear r r' hr, ih rs' hrs]

theorem weekly_points_frame (rows post : List Bet) (out : List WeekRow)
    (h : weekly_points rows = some (post, out)) :
    post.map clear_points = rows.map clear_points := by
  unfold weekly_points at h
  by_cases he : rows = []
  · rw [if_pos he] at h
    cases h
    rfl
  · rw [if_neg he] at h
    cases ha : assign_points rows with
    | none => rw [ha] at h; cases h
    | some scored =>
      rw [ha] at h
      obtain ⟨h1, _⟩ := bind_pair_inv h
      cases h1
      exact assign_points_clear rows post ha

theorem season_standings_frame (rows post : List Bet) (out : List StandingsRow)
    (h : season_standings rows = some (post, out)) :
    post.map clear_points = rows.map clear_points := by
  unfold season_standings at h
  by_cases he : rows = []
  · rw [if_pos he] at h
    cases h
    rfl
  · rw [if_neg he] at h
    cases ha : assign_points rows with
    | none => rw [ha] at h; cases h
    | some scored =>
      rw [ha] at h
      obtain ⟨h1, _⟩ := bind_pair_inv h
      cases h1
      exact assign_points_clear rows post ha

theorem cumulative_by_week_frame (rows post : List Bet) (out : List TrajectoryPoint)
    (h : cumulative_by_week rows = some (post, out)) :
    post.map clear_points = rows.map clear_points := by
  unfold cumulative_by_week at h
  by_cases he : rows = []
  · rw [if_pos he] at h
    cases h
    rfl
  · rw [if_neg he] at h
    cases ha : assign_points rows with
    | none => rw [ha] at h; cases h
    | some scored =>
      rw [ha] at h
      obtain ⟨h1, _⟩ := bind_pair_inv h
      cases h1
      exact assign_points_clear rows post ha

/-- C4 counterexample: on a one-row input the weekly aggregation's input frame,
observed after the call, is not the input observed before the call — the
in-place assignment `df['points'] = df.apply(...)` has written a `points`
column into it. -/
theorem weekly_points_mutates_input :
    (weekly_points [b0]).map Prod.fst =
        some [{ b0 with points := some (1000 / 11) }] ∧
      ({ b0 with points := some (1000 / 11) } : Bet) ≠ b0 := by
  constructor
  · decide
  · decide

/-- C4 amended: each aggregation operation mutates the input collection, but
only through the `points` column: after any of the three calls the input rows,
their order, and every column other than `points` are unchanged, and the
returned table is a separate new collection. -/
theorem aggregators_mutate_only_points_column (rows : List Bet) :
    (∀ post out, weekly_points rows = some (post, out) →
        post.map clear_points = rows.map clear_points) ∧
      (∀ post out, season_standings rows = some (post, out) →
          post.map clear_points = rows.map clear_points) ∧
      (∀ post out, cumulative_by_week rows = some (post, out) →
          post.map clear_points = rows.map clear_points) :=
  ⟨fun post out h => weekly_points_frame rows post out h,
    fun post out h => season_standings_frame rows post out h,
    fun post out h => cumulative_by_week_frame rows post out h⟩

theorem aggregators_mutate_only_points_column_witness :
    ([{ b0 with points := some (1000 / 11) }] : List Bet).map clear_points =
      [b0].map clear_points :=
  (aggregators_mutate_only_points_column [b0]).1
    [{ b0 with points := some (1000 / 11) }]
    [{ player_id := 1, player_name := "Logan", week := 1, points := 1000 / 11 }]
    (by decide)

/-! ## Generic lemmas about grouping, filtering and summing -/

theorem length_filter_eq_one {α : Type} {p : α → Bool} {l : List α} {a : α}
    (hnd : l.Nodup) (ha : a ∈ l) (hpa : p a = true)
    (huniq : ∀ b ∈ l, p b = true → b = a) :
    (l.filter p).length = 1 := by
  induction l with
  | nil => cases ha
  | cons x xs ih =>
    obtain ⟨hx, hxs⟩ := List.nodup_cons.mp hnd
    rcases List.mem_cons.mp ha with rfl | hmem
    · rw [List.filter_cons_of_pos hpa]
      have hnil : xs.filter p = [] := by
        rw [List.filter_eq_nil_iff]
        intro b hb hpb
        exact hx ((huniq b (List.mem_cons_of_mem _ hb) hpb) ▸ hb)
      rw [hnil]
      rfl
    · have hpx : ¬ p x = true := by
        intro hpx
        exact hx ((huniq x (List.mem_cons_self x xs) hpx) ▸ hmem)
      rw [List.filter_cons_of_neg (by simpa using hpx)]
      exact ih hxs hmem fun b hb hpb => huniq b (List.mem_cons_of_mem _ hb) hpb

theorem sum_map_filter_split {α : Type} (f : α → ℚ) (p q : α → Bool)
    (l : List α) :
    ((l.filter p).map f).sum =
      ((l.filter fun a => p a && q a).map f).sum +
        ((l.filter fun a => p a && !q a).map f).sum := by
  induction l with
  | nil => simp
  | cons x xs ih =>
    cases hp : p x with
    | true =>
      cases hq : q x with
      | true =>
        rw [List.filter_cons_of_pos hp, List.filter_cons_of_pos (by simp [hp, hq]),
          List.filter_cons_of_neg (by simp [hp, hq]), List.map_cons, List.sum_cons,
          List.map_cons, List.sum_cons, ih]
        ring
      | false =>
        rw [List.filter_cons_of_pos hp, List.filter_cons_of_neg (by simp [hp, hq]),
          List.filter_cons_of_pos (by simp [hp, hq]), List.map_cons, List.sum_cons,
          List.map_cons, List.sum_cons, ih]
        ring
    | false =>
      rw [List.filter_cons_of_neg (by simp [hp]), List.filter_cons_of_neg (by simp [hp]),
        List.filter_cons_of_neg (by simp [hp])]
      exact ih

theorem sum_groups {α κ : Type} [DecidableEq κ] (key : α → κ) (f : α → ℚ)
    (P : κ → Bool) :
    ∀ (ks : List κ) (l : List α), ks.Nodup → (∀ r ∈ l, key r ∈ ks) →
      ((ks.filter P).map fun k => ((l.filter fun r => key r = k).map f).sum).sum =
        ((l.filter fun r => P (key r)).map f).sum := by
  intro ks
  induction ks with
  | nil =>
    intro l _ hcov
    cases l with
    | nil => simp
    | cons r rs => exact absurd (hcov r (List.mem_cons_self r rs)) (List.not_mem_nil _)
  | cons k0 ks ih =>
    intro l hnd hcov
    obtain ⟨hk0, hks⟩ := List.nodup_cons.mp hnd
    have hsplit := sum_map_filter_split f (fun r => P (key r)) (fun r => key r = k0) l
    have hcov' : ∀ r ∈ l.filter fun r => ¬ key r = k0, key r ∈ ks := by
      intro r hr
      obtain ⟨hrl, hrk⟩ := List.mem_filter.mp hr
      rcases List.mem_cons.mp (hcov r hrl) with h | h
      · exact absurd h (by simpa using hrk)
      · exact h
    have hih := ih (l.filter fun r => ¬ key r = k0) hks hcov'
    have hrepl : ((ks.filter P).map fun k =>
          ((l.filter fun r => key r = k).map f).sum).sum =
        ((ks.filter P).map fun k =>
          (((l.filter fun r => ¬ key r = k0).filter fun r => key r = k).map f).sum).sum := by
      refine congrArg List.sum (List.map_congr_left fun k hk => ?_)
      have hkne : k ≠ k0 := by
        intro h
        exact hk0 (h ▸ List.mem_of_mem_filter hk)
      have : ((l.filter fun r => ¬ key r = k0).filter fun r => key r = k) =
          l.filter fun r => key r = k := by
        rw [List.filter_filter]
        refine List.filter_congr fun r _ => ?_
        by_cases hr : key r = k
        · simp [hr, hkne]
        · simp [hr]
      rw [this]
    have hsecond : (l.filter fun a => P (key a) && !(decide (key a = k0))) =
        ((l.filter fun r => ¬ key r = k0).filter fun r => P (key r)) := by
      rw [List.filter_filter]
      refine List.filter_congr fun r _ => ?_
      by_cases hr : key r = k0
      · simp [hr]
      · simp [hr]
    by_cases hP : P k0 = true
    · rw [List.filter_cons_of_pos hP, List.map_cons, List.sum_cons, hrepl, hih, hsplit]
      have hfirst : (l.filter fun a => P (key a) && decide (key a = k0)) =
          l.filter fun r => key r = k0 := by
        refine List.filter_congr fun r _ => ?_
        by_cases hr : key r = k0
        · simp [hr, hP]
        · simp [hr]
      rw [hfirst, hsecond]
    · have hP' : P k0 = false := by simp at hP; exact hP
      rw [List.filter_cons_of_neg (by simp [hP']), hrepl, hih, hsplit]
      have hfirst : (l.filter fun a => P (key a) && decide (key a = k0)) = [] := by
        rw [List.filter_eq_nil_iff]
        intro r _
        by_cases hr : key r = k0
        · simp [hr, hP']
        · simp [hr]
      rw [hfirst, hsecond]
      simp

theorem sort_values_desc_perm {α : Type} (key : α → ℚ) (l : List α) :
    (sort_values_desc key l).Perm l := by
  unfold sort_values_desc
  exact ((List.insertionSort (fun a b => key a ≤ key b) l.reverse).reverse_perm.trans
    (List.perm_insertionSort _ l.reverse)).trans l.reverse_perm

/-! ## Characterization of the season standings (claim C6) -/

theorem filter_scored_eq (rows : List Bet) (p : Bet → Bool)
    (hp : ∀ x, p (score_row_val x) = p x) :
    (rows.map score_row_val).filter p = (rows.filter p).map score_row_val := by
  rw [List.filter_map]
  exact congrArg (List.map score_row_val) (List.filter_congr fun x _ => hp x)

theorem filter_length_scored (rows : List Bet) (p : Bet → Bool)
    (hp : ∀ x, p (score_row_val x) = p x) :
    ((rows.map score_row_val).filter p).length = (rows.filter p).length := by
  rw [filter_scored_eq rows p hp, List.length_map]

theorem filter_sum_scored (rows : List Bet) (p : Bet → Bool)
    (hp : ∀ x, p (score_row_val x) = p x) :
    (((rows.map score_row_val).filter p).map row_points).sum =
      ((rows.filter p).map bet_points_row).sum := by
  rw [filter_scored_eq rows p hp, List.map_map]
  exact congrArg List.sum (List.map_congr_left fun x _ => rfl)

theorem sk_keys_mem (rows : List Bet) (k : ℤ × String) :
    k ∈ List.insertionSort sk_le (((rows.map score_row_val).map sk_key).dedup) ↔
      ∃ x ∈ rows, sk_key x = k := by
  rw [List.mem_insertionSort, List.mem_dedup, List.map_map, List.mem_map]
  constructor
  · rintro ⟨x, hx, hk⟩
    exact ⟨x, hx, hk⟩
  · rintro ⟨x, hx, hk⟩
    exact ⟨x, hx, hk⟩

theorem sk_keys_nodup (rows : List Bet) :
    (List.insertionSort sk_le (((rows.map score_row_val).map sk_key).dedup)).Nodup :=
  (List.perm_insertionSort sk_le _).symm.nodup (List.nodup_dedup _)

theorem standings_row_fields (rows : List Bet) (hc : PlayerConsistent rows)
    (r : Bet) (hr : r ∈ rows) :
    (standings_row (rows.map score_row_val) (sk_key r)).total_bets =
        (rows.filter fun x => x.player_id = r.player_id).length ∧
      (standings_row (rows.map score_row_val) (sk_key r)).wins =
        (rows.filter fun x => x.player_id = r.player_id ∧ x.result = "win").length ∧
      (standings_row (rows.map score_row_val) (sk_key r)).losses =
        (rows.filter fun x => x.player_id = r.player_id ∧ x.result = "loss").length ∧
      (standings_row (rows.map score_row_val) (sk_key r)).pushes =
        (rows.filter fun x => x.player_id = r.player_id ∧ x.result = "push").length ∧
      (standings_row (rows.map score_row_val) (sk_key r)).season_points =
        round1 (((rows.filter fun x => x.player_id = r.player_id).map
          bet_points_row).sum) := by
  have hiffp : ∀ x ∈ rows, (sk_key x = sk_key r ↔ x.player_id = r.player_id) := by
    intro x hx
    constructor
    · intro h
      exact congrArg Prod.fst h
    · intro h
      have hn : x.player_name = r.player_name := ((hc x hx r hr).1).mp h
      unfold sk_key
      rw [h, hn]
  have hiff : ∀ x ∈ rows,
      (decide (sk_key x = sk_key r)) = (decide (x.player_id = r.player_id)) :=
    fun x hx => decide_eq_decide.mpr (hiffp x hx)
  refine ⟨?_, ?_, ?_, ?_, ?_⟩
  · show ((rows.map score_row_val).filter fun y => sk_key y = sk_key r).length = _
    rw [filter_length_scored rows (fun y => sk_key y = sk_key r) fun x => rfl]
    exact congrArg List.length (List.filter_congr hiff)
  · show ((rows.map score_row_val).filter fun y =>
        sk_key y = sk_key r ∧ y.result = "win").length = _
    rw [filter_length_scored rows
      (fun y => sk_key y = sk_key r ∧ y.result = "win") fun x => rfl]
    refine congrArg List.length (List.filter_congr fun x hx => ?_)
    exact decide_eq_decide.mpr (and_congr_left fun _ => hiffp x hx)
  · show ((rows.map score_row_val).filter fun y =>
        y.player_id = (sk_key r).1 ∧ y.result = "loss").length = _
    rw [filter_length_scored rows
      (fun y => y.player_id = (sk_key r).1 ∧ y.result = "loss") fun x => rfl]
    rfl
  · show ((rows.map score_row_val).filter fun y =>
        y.player_id = (sk_key r).1 ∧ y.result = "push").length = _
    rw [filter_length_scored rows
      (fun y => y.player_id = (sk_key r).1 ∧ y.result = "push") fun x => rfl]
    rfl
  · show round1 (((rows.map score_row_val).filter fun y =>
        sk_key y = sk_key r).map row_points).sum = _
    rw [filter_sum_scored rows (fun y => sk_key y = sk_key r) fun x => rfl]
    exact congrArg round1 (congrArg List.sum
      (congrArg (List.map bet_points_row) (List.filter_congr hiff)))

theorem season_standings_char (rows : List Bet) (hv : ValidOdds rows)
    (hc : PlayerConsistent rows) (post : List Bet) (stand : List StandingsRow)
    (hs : season_standings rows = some (post, stand)) :
    (∀ srow ∈ stand, ∃ x ∈ rows, x.player_name = srow.player_name) ∧
      ∀ r ∈ rows,
        ((stand.filter fun srow => srow.player_name = r.player_name).length = 1 ∧
          ∀ srow ∈ stand, srow.player_name = r.player_name →
            srow.total_bets = (rows.filter fun x => x.player_id = r.player_id).length ∧
            srow.wins = (rows.filter fun x =>
              x.player_id = r.player_id ∧ x.result = "win").length ∧
            srow.losses = (rows.filter fun x =>
              x.player_id = r.player_id ∧ x.result = "loss").length ∧
            srow.pushes = (rows.filter fun x =>
              x.player_id = r.player_id ∧ x.result = "push").length ∧
            srow.season_points =
              round1 (((rows.filter fun x => x.player_id = r.player_id).map
                bet_points_row).sum)) := by
  by_cases he : rows = []
  · subst he
    unfold season_standings at hs
    rw [if_pos rfl] at hs
    cases hs
    exact ⟨fun srow h => absurd h (List.not_mem_nil _),
      fun r hr => absurd hr (List.not_mem_nil _)⟩
  · unfold season_standings at hs
    rw [if_neg he, assign_points_eq_val rows hv] at hs
    obtain ⟨h1, h2⟩ := bind_pair_inv hs
    obtain rfl := Option.some.inj h1
    have hkmem := sk_keys_mem rows
    have hknodup := sk_keys_nodup rows
    have hperm : stand.Perm
        ((List.insertionSort sk_le (((rows.map score_row_val).map sk_key).dedup)).map
          (standings_row (rows.map score_row_val))) := by
      rw [← h2]
      exact sort_values_desc_perm _ _
    refine ⟨?_, ?_⟩
    · intro srow hsrow
      obtain ⟨k, hk, hkeq⟩ := List.mem_map.mp (hperm.mem_iff.mp hsrow)
      obtain ⟨x, hx, hxk⟩ := (hkmem k).mp hk
      refine ⟨x, hx, ?_⟩
      rw [← hkeq]
      exact congrArg Prod.snd hxk
    · intro r hr
      have hkr : sk_key r ∈
          List.insertionSort sk_le (((rows.map score_row_val).map sk_key).dedup) :=
        (hkmem _).mpr ⟨r, hr, rfl⟩
      have huniq : ∀ k ∈
          List.insertionSort sk_le (((rows.map score_row_val).map sk_key).dedup),
          k.2 = r.player_name → k = sk_key r := by
        intro k hk h2k
        obtain ⟨x, hx, hxk⟩ := (hkmem k).mp hk
        have hxname : x.player_name = r.player_name :=
          (congrArg Prod.snd hxk).trans h2k
        have hxid : x.player_id = r.player_id := ((hc x hx r hr).1).mpr hxname
        rw [← hxk]
        show sk_key x = sk_key r
        unfold sk_key
        rw [hxid, hxname]
      refine ⟨?_, ?_⟩
      · rw [(hperm.filter _).length_eq, List.filter_map, List.length_map]
        refine length_filter_eq_one hknodup hkr ?_ ?_
        · exact decide_eq_true rfl
        · intro k hk hpk
          exact huniq k hk (of_decide_eq_true hpk)
      · intro srow hsrow hname
        obtain ⟨k, hk, hkeq⟩ := List.mem_map.mp (hperm.mem_iff.mp hsrow)
        have hk2 : k.2 = r.player_name := by
          rw [← hname, ← hkeq]
          rfl
        obtain rfl := huniq k hk hk2
        rw [← hkeq]
        exact standings_row_fields rows hc r hr

/-- C6: the season standings contain exactly one row per participant that has
at least one wager (no row for anyone else); on that row `total_bets` counts
all of the participant's wager rows including pending ones, `wins`, `losses`
and `pushes` count the rows with each respective result, and `season_points`
is the sum of `points(...)` over the participant's rows rounded to one
decimal place. -/
theorem season_standings_one_row_per_participant (rows : List Bet)
    (hv : ValidOdds rows) (hc : PlayerConsistent rows) (post : List Bet)
    (stand : List StandingsRow)
    (hs : season_standings rows = some (post, stand)) :
    (∀ srow ∈ stand, ∃ x ∈ rows, x.player_name = srow.player_name) ∧
      ∀ r ∈ rows,
        ((stand.filter fun srow => srow.player_name = r.player_name).length = 1 ∧
          ∀ srow ∈ stand, srow.player_name = r.player_name →
            srow.total_bets = (rows.filter fun x => x.player_id = r.player_id).length ∧
            srow.wins = (rows.filter fun x =>
              x.player_id = r.player_id ∧ x.result = "win").length ∧
            srow.losses = (rows.filter fun x =>
              x.player_id = r.player_id ∧ x.result = "loss").length ∧
            srow.pushes = (rows.filter fun x =>
              x.player_id = r.player_id ∧ x.result = "push").length ∧
            srow.season_points =
              round1 (((rows.filter fun x => x.player_id = r.player_id).map
                bet_points_row).sum)) :=
  season_standings_char rows hv hc post stand hs

theorem season_standings_one_row_per_participant_witness :
    ValidOdds [b0] ∧ PlayerConsistent [b0] ∧
      (([{ player_name := "Logan", total_bets := 1, wins := 1, losses := 0,
           pushes := 0, season_points := 909 / 10 }] : List StandingsRow).filter
        fun srow => srow.player_name = b0.player_name).length = 1 :=
  ⟨by decide, by decide,
    ((season_standings_one_row_per_participant [b0] (by decide) (by decide)
        [{ b0 with points := some (1000 / 11) }]
        [{ player_name := "Logan", total_bets := 1, wins := 1, losses := 0,
           pushes := 0, season_points := 909 / 10 }] (by decide)).2 b0
      (List.mem_cons_self b0 [])).1⟩

/-! ## Characterization of the cumulative trajectory (claims C7, C8) -/

instance : IsTotal (ℤ × String × String × ℤ) ck_le :=
  ⟨lex2_total (fun x y => lt_trichotomy x y)
    (lex2_total str_lt_trichotomy
      (lex2_total str_lt_trichotomy fun x y => le_total x y))⟩

instance : IsTrans (ℤ × String × String × ℤ) ck_le :=
  ⟨lex2_trans (fun x y z h1 h2 => lt_trans h1 h2)
    (lex2_trans str_lt_trans
      (lex2_trans str_lt_trans fun x y z h1 h2 => le_trans h1 h2))⟩

instance : IsAntisymm (ℤ × String × String × ℤ) ck_le :=
  ⟨lex2_antisymm (fun x y h1 h2 => lt_asymm h1 h2)
    (lex2_antisymm str_lt_asymm
      (lex2_antisymm str_lt_asymm fun x y h1 h2 => le_antisymm h1 h2))⟩

instance : IsTotal WeeklyKeyRow pw_le :=
  ⟨fun a b =>
    lex2_total (fun x y => lt_trichotomy x y) (fun x y => le_total x y) _ _⟩

instance : IsTrans WeeklyKeyRow pw_le :=
  ⟨fun a b c h1 h2 =>
    @lex2_trans ℤ ℤ (fun x y => x < y) (fun x y => x ≤ y)
      (fun x y z hx hy => lt_trans hx hy) (fun x y z hx hy => le_trans hx hy)
      (a.player_id, a.week) (b.player_id, b.week) (c.player_id, c.week) h1 h2⟩

theorem ck_keys_mem (rows : List Bet) (k : ℤ × String × String × ℤ) :
    k ∈ List.insertionSort ck_le (((rows.map score_row_val).map ck_key).dedup) ↔
      ∃ x ∈ rows, ck_key x = k := by
  rw [List.mem_insertionSort, List.mem_dedup, List.map_map, List.mem_map]
  constructor
  · rintro ⟨x, hx, hk⟩
    exact ⟨x, hx, hk⟩
  · rintro ⟨x, hx, hk⟩
    exact ⟨x, hx, hk⟩

theorem ck_keys_nodup (rows : List Bet) :
    (List.insertionSort ck_le (((rows.map score_row_val).map ck_key).dedup)).Nodup :=
  (List.perm_insertionSort ck_le _).symm.nodup (List.nodup_dedup _)

theorem cumsum_by_player_cons (acc : ℤ → ℚ) (r : WeeklyKeyRow)
    (rs : List WeeklyKeyRow) :
    cumsum_by_player acc (r :: rs) =
      (r, acc r.player_id + r.points) ::
        cumsum_by_player
          (fun p => if p = r.player_id then acc r.player_id + r.points else acc p)
          rs := rfl

theorem cumsum_fst_mem (l : List WeeklyKeyRow) :
    ∀ (acc : ℤ → ℚ), ∀ rc ∈ cumsum_by_player acc l, rc.1 ∈ l := by
  induction l with
  | nil =>
    intro acc rc h
    cases h
  | cons r rs ih =>
    intro acc rc hrc
    rw [cumsum_by_player_cons] at hrc
    rcases List.mem_cons.mp hrc with rfl | htail
    · exact List.mem_cons_self _ _
    · exact List.mem_cons_of_mem _ (ih _ rc htail)

/-- Running-sum characterization of `groupby('player_id')['points'].cumsum()`
on a frame sorted by `(player_id, week)` with distinct `(player_id, week)`
keys: the cumulative value carried by a row is the accumulator plus the
`points` of all rows of the same player up to and including that row's week. -/
theorem cumsum_spec (l : List WeeklyKeyRow) (acc : ℤ → ℚ)
    (hsort : l.Pairwise pw_le)
    (hkey : l.Pairwise fun a b => ¬((a.player_id, a.week) = (b.player_id, b.week))) :
    ∀ rc ∈ cumsum_by_player acc l,
      rc.2 = acc rc.1.player_id +
        ((l.filter fun v =>
          v.player_id = rc.1.player_id ∧ v.week ≤ rc.1.week).map
            (fun v => v.points)).sum := by
  induction l generalizing acc with
  | nil =>
    intro rc h
    cases h
  | cons r rs ih =>
    intro rc hrc
    obtain ⟨hhead, hsort'⟩ := List.pairwise_cons.mp hsort
    obtain ⟨hkhead, hkey'⟩ := List.pairwise_cons.mp hkey
    rw [cumsum_by_player_cons] at hrc
    rcases List.mem_cons.mp hrc with rfl | htail
    · have hfilt : (rs.filter fun v =>
          v.player_id = r.player_id ∧ v.week ≤ r.week) = [] := by
        rw [List.filter_eq_nil_iff]
        intro v hv hpv
        obtain ⟨h1, h2⟩ := of_decide_eq_true hpv
        rcases hhead v hv with hlt | ⟨heq, hle⟩
        · exact absurd (h1 ▸ hlt) (lt_irrefl _)
        · exact hkhead v hv (by rw [h1, le_antisymm h2 hle])
      rw [List.filter_cons_of_pos (by simp), hfilt, List.map_cons, List.sum_cons]
      simp
    · have hspec := ih _ hsort' hkey' rc htail
      have hwmem : rc.1 ∈ rs := cumsum_fst_mem rs _ rc htail
      by_cases hpid : rc.1.player_id = r.player_id
      · have hle : r.week ≤ rc.1.week := by
          rcases hhead rc.1 hwmem with hlt | ⟨heq, hle⟩
          · exact absurd (hpid ▸ hlt) (lt_irrefl _)
          · exact hle
        rw [List.filter_cons_of_pos (by simp [hpid.symm, hle]), List.map_cons,
          List.sum_cons, hspec, if_pos hpid, hpid]
        ring
      · rw [List.filter_cons_of_neg (by
            intro hcontra
            exact hpid (of_decide_eq_true hcontra).1.symm), hspec,
          if_neg hpid]

theorem wt2_filter_sum (rows : List Bet) (P W : ℤ) :
    (((List.insertionSort pw_le
        ((List.insertionSort ck_le (((rows.map score_row_val).map ck_key).dedup)).map
          (weekly_key_row (rows.map score_row_val)))).filter
        fun v => v.player_id = P ∧ v.week ≤ W).map (fun v => v.points)).sum =
      ((rows.filter fun x => x.player_id = P ∧ x.week ≤ W).map
        bet_points_row).sum := by
  have hperm : ((List.insertionSort pw_le
      ((List.insertionSort ck_le (((rows.map score_row_val).map ck_key).dedup)).map
        (weekly_key_row (rows.map score_row_val)))).filter
      fun v => v.player_id = P ∧ v.week ≤ W).Perm
      (((List.insertionSort ck_le (((rows.map score_row_val).map ck_key).dedup)).map
        (weekly_key_row (rows.map score_row_val))).filter
        fun v => v.player_id = P ∧ v.week ≤ W) :=
    (List.perm_insertionSort pw_le _).filter _
  rw [(hperm.map (fun v => v.points)).sum_eq, List.filter_map, List.map_map]
  have hgrp : ∀ k, ((fun v => v.points) ∘ weekly_key_row (rows.map score_row_val)) k =
      ((rows.filter fun x => ck_key x = k).map bet_points_row).sum :=
    fun k => filter_sum_scored rows (fun y => ck_key y = k) fun x => rfl
  rw [List.map_congr_left fun k _ => hgrp k]
  have := sum_groups ck_key bet_points_row
    (fun k => decide (k.1 = P ∧ k.2.2.2 ≤ W))
    (List.insertionSort ck_le (((rows.map score_row_val).map ck_key).dedup)) rows
    (ck_keys_nodup rows) (fun x hx => (ck_keys_mem rows (ck_key x)).mpr ⟨x, hx, rfl⟩)
  exact this

/-- Per-player, per-week content of the trajectory: every trajectory point of
a participant carries the exact sum of that participant's `points` over all
wager rows with week at most the point's week, independent of any other
participant. -/
theorem cumulative_by_week_char (rows : List Bet) (hv : ValidOdds rows)
    (hc : PlayerConsistent rows) (post : List Bet) (traj : List TrajectoryPoint)
    (ht : cumulative_by_week rows = some (post, traj)) :
    ∀ r ∈ rows, ∀ t ∈ traj, t.player_name = r.player_name →
      t.cumulative_points =
        ((rows.filter fun x => x.player_id = r.player_id ∧ x.week ≤ t.week).map
          bet_points_row).sum := by
  by_cases he : rows = []
  · subst he
    unfold cumulative_by_week at ht
    rw [if_pos rfl] at ht
    cases ht
    intro r hr
    exact absurd hr (List.not_mem_nil _)
  · unfold cumulative_by_week at ht
    rw [if_neg he, assign_points_eq_val rows hv] at ht
    obtain ⟨h1, h2⟩ := bind_pair_inv ht
    obtain rfl := Option.some.inj h1
    intro r hr t htmem hname
    rw [← h2] at htmem
    obtain ⟨rc, hrc, hrceq⟩ := List.mem_map.mp htmem
    have hsort : (List.insertionSort pw_le
        ((List.insertionSort ck_le (((rows.map score_row_val).map ck_key).dedup)).map
          (weekly_key_row (rows.map score_row_val)))).Pairwise pw_le :=
      List.sorted_insertionSort pw_le _
    have hdist : (List.insertionSort pw_le
        ((List.insertionSort ck_le (((rows.map score_row_val).map ck_key).dedup)).map
          (weekly_key_row (rows.map score_row_val)))).Pairwise
        (fun a b => ¬((a.player_id, a.week) = (b.player_id, b.week))) := by
      refine ((List.perm_insertionSort pw_le _).pairwise_iff ?_).mpr ?_
      · intro x y h heq
        exact h heq.symm
      · rw [List.pairwise_map]
        refine (ck_keys_nodup rows).imp_of_mem ?_
        intro a b ha hb hab heq
        obtain ⟨x, hx, hxa⟩ := (ck_keys_mem rows a).mp ha
        obtain ⟨y, hy, hyb⟩ := (ck_keys_mem rows b).mp hb
        have hid : x.player_id = y.player_id := by
          have h1 := congrArg Prod.fst heq
          rw [← hxa, ← hyb] at h1
          exact h1
        have hwk : x.week = y.week := by
          have h2w := congrArg Prod.snd heq
          rw [← hxa, ← hyb] at h2w
          exact h2w
        have hnm : x.player_name = y.player_name := (hc x hx y hy).1.mp hid
        have hcol : x.color = y.color := (hc x hx y hy).2 hid
        apply hab
        rw [← hxa, ← hyb]
        show ck_key x = ck_key y
        unfold ck_key
        rw [hid, hnm, hcol, hwk]
    have hspec := cumsum_spec _ (fun _ => 0) hsort hdist rc hrc
    have hmem1 : rc.1 ∈ (List.insertionSort ck_le
        (((rows.map score_row_val).map ck_key).dedup)).map
          (weekly_key_row (rows.map score_row_val)) :=
      (List.perm_insertionSort pw_le _).mem_iff.mp (cumsum_fst_mem _ _ rc hrc)
    obtain ⟨k, hk, hkeq⟩ := List.mem_map.mp hmem1
    obtain ⟨x, hx, hxk⟩ := (ck_keys_mem rows k).mp hk
    have hxname : x.player_name = r.player_name := by
      have e1 : x.player_name = rc.1.player_name := by
        rw [← hkeq, ← hxk]
        rfl
      have e2 : rc.1.player_name = t.player_name := by
        rw [← hrceq]
        rfl
      rw [e1, e2, hname]
    have hxid : x.player_id = r.player_id := (hc x hx r hr).1.mpr hxname
    have hrcid : rc.1.player_id = r.player_id := by
      have e1 : rc.1.player_id = x.player_id := by
        rw [← hkeq, ← hxk]
        rfl
      rw [e1, hxid]
    have hrcweek : rc.1.week = t.week := by
      rw [← hrceq]
      rfl
    have hcum : t.cumulative_points = rc.2 := by
      rw [← hrceq]
      rfl
    rw [hcum, hspec, zero_add, hrcid, hrcweek, wt2_filter_sum rows r.player_id t.week]

theorem cumulative_by_week_perm (rows rows' : List Bet) (hp : rows.Perm rows')
    (hv : ValidOdds rows) (post : List Bet) (traj : List TrajectoryPoint)
    (ht : cumulative_by_week rows = some (post, traj)) :
    ∃ post', cumulative_by_week rows' = some (post', traj) := by
  by_cases he : rows = []
  · subst he
    have hr' : rows' = [] := hp.symm.eq_nil
    subst hr'
    unfold cumulative_by_week at ht ⊢
    rw [if_pos rfl] at ht ⊢
    cases ht
    exact ⟨[], rfl⟩
  · have he' : rows' ≠ [] := by
      intro h
      subst h
      exact he hp.eq_nil
    have hv' : ValidOdds rows' := fun x hx => hv x (hp.mem_iff.mpr hx)
    unfold cumulative_by_week at ht ⊢
    rw [if_neg he, assign_points_eq_val rows hv] at ht
    rw [if_neg he', assign_points_eq_val rows' hv']
    obtain ⟨h1, h2⟩ := bind_pair_inv ht
    obtain rfl := Option.some.inj h1
    have hmapperm : ((rows'.map score_row_val).map ck_key).Perm
        ((rows.map score_row_val).map ck_key) :=
      (hp.symm.map score_row_val).map ck_key
    have hkeys : List.insertionSort ck_le (((rows'.map score_row_val).map ck_key).dedup) =
        List.insertionSort ck_le (((rows.map score_row_val).map ck_key).dedup) :=
      List.eq_of_perm_of_sorted
        ((List.perm_insertionSort _ _).trans
          (hmapperm.dedup.trans (List.perm_insertionSort _ _).symm))
        (List.sorted_insertionSort ck_le _) (List.sorted_insertionSort ck_le _)
    have hgs : ∀ k, ((rows'.filter fun x => ck_key x = k).map bet_points_row).sum =
        ((rows.filter fun x => ck_key x = k).map bet_points_row).sum :=
      fun k => ((hp.symm.filter _).map bet_points_row).sum_eq
    have hwt : (List.insertionSort ck_le
          (((rows'.map score_row_val).map ck_key).dedup)).map
          (weekly_key_row (rows'.map score_row_val)) =
        (List.insertionSort ck_le
          (((rows.map score_row_val).map ck_key).dedup)).map
          (weekly_key_row (rows.map score_row_val)) := by
      rw [hkeys]
      refine List.map_congr_left fun k hk => ?_
      unfold weekly_key_row
      rw [filter_sum_scored rows' (fun y => ck_key y = k) fun x => rfl,
        filter_sum_scored rows (fun y => ck_key y = k) fun x => rfl, hgs k]
    refine ⟨rows'.map score_row_val, ?_⟩
    have htraj : (cumsum_by_player (fun _ => 0)
        (List.insertionSort pw_le
          ((List.insertionSort ck_le (((rows'.map score_row_val).map ck_key).dedup)).map
            (weekly_key_row (rows'.map score_row_val))))).map trajectory_point = traj := by
      rw [hwt]
      exact h2
    rw [← htraj]
    rfl

/-- Sample wager row of the same player in week 2: a settled non-special loss
worth exactly `-stake = -100` points. -/
def b1 : Bet :=
  { id := 2, week := 2, player_id := 1, player_name := "Logan",
    description := "Under 52.5", american_odds := 120, stake := 100,
    is_triple := false, result := "loss", color := "#e74c3c", points := none }

/-- C7: the cumulative-by-week trajectory is computed independently per
participant over weeks taken in ascending order, regardless of input row
order: the output is invariant under any permutation of the input rows, and
the cumulative value carried at week `w` for a participant is exactly the sum
of that participant's points over all of their rows with week at most `w`,
with no contribution from any other participant. -/
theorem cumulative_trajectory_spec (rows : List Bet) (hv : ValidOdds rows)
    (hc : PlayerConsistent rows) (post : List Bet) (traj : List TrajectoryPoint)
    (ht : cumulative_by_week rows = some (post, traj)) :
    (∀ rows', rows.Perm rows' →
        ∃ post', cumulative_by_week rows' = some (post', traj)) ∧
      ∀ r ∈ rows, ∀ t ∈ traj, t.player_name = r.player_name →
        t.cumulative_points =
          ((rows.filter fun x => x.player_id = r.player_id ∧ x.week ≤ t.week).map
            bet_points_row).sum :=
  ⟨fun rows' hp => cumulative_by_week_perm rows rows' hp hv post traj ht,
    cumulative_by_week_char rows hv hc post traj ht⟩

theorem cumulative_trajectory_spec_witness :
    ValidOdds [b1, b0] ∧ PlayerConsistent [b1, b0] ∧
      (({ player_name := "Logan", week := 2, cumulative_points := -100 / 11,
          color := "#e74c3c" } : TrajectoryPoint).cumulative_points =
        (([b1, b0].filter fun x => x.player_id = b0.player_id ∧
            x.week ≤ ({ player_name := "Logan", week := 2,
                        cumulative_points := -100 / 11,
                        color := "#e74c3c" } : TrajectoryPoint).week).map
          bet_points_row).sum) :=
  ⟨by decide, by decide,
    (cumulative_trajectory_spec [b1, b0] (by decide) (by decide)
        [{ b1 with points := some (-100) }, { b0 with points := some (1000 / 11) }]
        [{ player_name := "Logan", week := 1, cumulative_points := 1000 / 11,
           color := "#e74c3c" },
         { player_name := "Logan", week := 2, cumulative_points := -100 / 11,
           color := "#e74c3c" }] (by decide)).2 b0 (by decide)
      { player_name := "Logan", week := 2, cumulative_points := -100 / 11,
        color := "#e74c3c" } (by decide) rfl⟩

/-- C8 counterexample: one settled win at odds −110 and stake 100.  The
trajectory's value at the participant's last (only) week is the exact sum
`1000 / 11 ≈ 90.909`, while the standings' `season_points` is the rounded
`909 / 10 = 90.9`; the two are not equal. -/
theorem trajectory_final_differs_from_season_points :
    cumulative_by_week [b0] = some ([{ b0 with points := some (1000 / 11) }],
      [{ player_name := "Logan", week := 1, cumulative_points := 1000 / 11,
         color := "#e74c3c" }]) ∧
      season_standings [b0] = some ([{ b0 with points := some (1000 / 11) }],
        [{ player_name := "Logan", total_bets := 1, wins := 1, losses := 0,
           pushes := 0, season_points := 909 / 10 }]) ∧
      (1000 / 11 : ℚ) ≠ 909 / 10 :=
  ⟨by decide, by decide, by decide⟩

/-- C8 amended: at a participant's last (maximum) week the trajectory carries
the exact, unrounded season sum of that participant's points, and the
standings row shows that same sum rounded to one decimal, so the two agree
only after rounding the trajectory value to one decimal place. -/
theorem trajectory_final_rounds_to_season_points (rows : List Bet)
    (hv : ValidOdds rows) (hc : PlayerConsistent rows)
    (postc : List Bet) (traj : List TrajectoryPoint)
    (posts : List Bet) (stand : List StandingsRow)
    (hcum : cumulative_by_week rows = some (postc, traj))
    (hst : season_standings rows = some (posts, stand)) :
    ∀ r ∈ rows, ∀ t ∈ traj, t.player_name = r.player_name →
      (∀ x ∈ rows, x.player_id = r.player_id → x.week ≤ t.week) →
      ∀ srow ∈ stand, srow.player_name = r.player_name →
        t.cumulative_points = ((rows.filter fun x =>
            x.player_id = r.player_id).map bet_points_row).sum ∧
          srow.season_points = round1 t.cumulative_points := by
  intro r hr t htm hname hlast srow hsm hsname
  have h1 := cumulative_by_week_char rows hv hc postc traj hcum r hr t htm hname
  have hfe : (rows.filter fun x => x.player_id = r.player_id ∧ x.week ≤ t.week) =
      rows.filter fun x => x.player_id = r.player_id := by
    refine List.filter_congr fun x hx => ?_
    by_cases hid : x.player_id = r.player_id
    · simp [hid, hlast x hx hid]
    · simp [hid]
  rw [hfe] at h1
  have h2 := ((season_standings_char rows hv hc posts stand hst).2 r hr).2
    srow hsm hsname
  exact ⟨h1, by rw [h2.2.2.2.2, h1]⟩

theorem trajectory_final_rounds_to_season_points_witness :
    ValidOdds [b0] ∧ PlayerConsistent [b0] ∧
      (({ player_name := "Logan", week := 1, cumulative_points := 1000 / 11,
          color := "#e74c3c" } : TrajectoryPoint).cumulative_points =
          (([b0].filter fun x => x.player_id = b0.player_id).map
            bet_points_row).sum ∧
        ({ player_name := "Logan", total_bets := 1, wins := 1, losses := 0,
           pushes := 0, season_points := 909 / 10 } : StandingsRow).season_points =
          round1 ({ player_name := "Logan", week := 1,
                     cumulative_points := 1000 / 11,
                     color := "#e74c3c" } : TrajectoryPoint).cumulative_points) :=
  ⟨by decide, by decide,
    trajectory_final_rounds_to_season_points [b0] (by decide) (by decide)
      [{ b0 with points := some (1000 / 11) }]
      [{ player_name := "Logan", week := 1, cumulative_points := 1000 / 11,
         color := "#e74c3c" }]
      [{ b0 with points := some (1000 / 11) }]
      [{ player_name := "Logan", total_bets := 1, wins := 1, losses := 0,
         pushes := 0, season_points := 909 / 10 }]
      (by decide) (by decide) b0 (by decide)
      { player_name := "Logan", week := 1, cumulative_points := 1000 / 11,
        color := "#e74c3c" } (by decide) rfl (by decide)
      { player_name := "Logan", total_bets := 1, wins := 1, losses := 0,
        pushes := 0, season_points := 909 / 10 } (by decide) rfl⟩

end FriendsBets
